import Mathlib

set_option maxRecDepth 8000

/-!
Verification development for the MelodyAnalyzer4Jazz repository.

The repository consists of three Python files:
  - src/scale_detector.py        (standalone command-line analyzer)
  - src/jazz_scale_app.py        (Tk GUI app; analysis backend at the top)
  - src/jazz_scale_app_guitar.py (guitar variant; its analysis backend is
    identical to jazz_scale_app.py in the region relevant here)

The pitch-tracking collaborator (librosa.pyin / hz_to_midi) is external to the
repository (spec section 6): the code consumes a per-frame stream of
(frequency-or-NaN, voicing confidence) and immediately quantizes each voiced
frequency to the nearest MIDI note.  We therefore embed one analysis frame as
an optional already-quantized MIDI note together with its confidence; a frame
whose frequency is NaN (unvoiced) carries none.  Python floats are embedded as
exact rationals.
-/

/-- One analysis frame: the quantized MIDI note of the frame (none when the
pitch tracker reported no pitch / NaN) and the voicing confidence. -/
structure PitchObservation where
  midi : Option Nat
  conf : ℚ
  deriving DecidableEq, Repr

/-- Frames surviving Step 1 of the extraction:
`confident_f0 = f0[voiced_probs > threshold]` followed by dropping NaN frames,
then quantization.  Keeps the quantized note of every frame whose confidence
is strictly above the threshold and whose pitch is present. -/
def surviving (obs : List PitchObservation) (threshold : ℚ) : List Nat :=
  obs.filterMap (fun o => if threshold < o.conf then o.midi else none)

/-- One step of `collections.Counter` construction: increment the count of the
first entry holding key `m`, or append `(m, 1)` if the key is absent.  Python
dicts preserve insertion order, so the association list is kept in first
occurrence order. -/
def bump (m : Nat) : List (Nat × Nat) → List (Nat × Nat)
  | [] => [(m, 1)]
  | (a, k) :: rest => if a = m then (a, k + 1) :: rest else (a, k) :: bump m rest

/-- `collections.Counter(notes)` as an association list in first-occurrence
order (Python dict insertion order). -/
def counter (notes : List Nat) : List (Nat × Nat) :=
  notes.foldl (fun acc m => bump m acc) []

/-- `sum(counts.values())`. -/
def totalCount (cnt : List (Nat × Nat)) : Nat :=
  (cnt.map (fun p => p.2)).sum

/-- Descending-by-count order used by `Counter.most_common`:
`heapq.nlargest` is documented as equivalent to a stable descending sort. -/
def countRel (a b : Nat × Nat) : Prop := b.2 ≤ a.2

instance : DecidableRel countRel := fun a b =>
  inferInstanceAs (Decidable (b.2 ≤ a.2))

instance : IsTotal (Nat × Nat) countRel :=
  ⟨fun a b => (le_total b.2 a.2).elim Or.inl Or.inr⟩

instance : IsTrans (Nat × Nat) countRel :=
  ⟨fun _ _ _ h h' => le_trans h' h⟩

/-- `Counter.most_common(k)` : the first `k` entries of the stable descending
sort by count (ties keep first-occurrence order). -/
def most_common (k : Nat) (cnt : List (Nat × Nat)) : List (Nat × Nat) :=
  (List.insertionSort countRel cnt).take k

/-- Descending-by-score order used by
`sorted(scores.items(), key=lambda item: item[1], reverse=True)`;
Python's `sorted` is stable, which `List.insertionSort` models. -/
def scoreRel (a b : String × ℚ) : Prop := b.2 ≤ a.2

instance : DecidableRel scoreRel := fun a b =>
  inferInstanceAs (Decidable (b.2 ≤ a.2))

instance : IsTotal (String × ℚ) scoreRel :=
  ⟨fun a b => (le_total b.2 a.2).elim Or.inl Or.inr⟩

instance : IsTrans (String × ℚ) scoreRel :=
  ⟨fun _ _ _ h h' => le_trans h' h⟩

/-- `NOTE_NAMES` (identical in all three files); one Python list literal in
the sources, written here as two halves appended. -/
def NOTE_NAMES : List String :=
  ["C", "C#", "D", "D#", "E", "F"] ++
    ["F#", "G", "G#", "A", "A#", "B"]

namespace JazzScaleApp

/-- `SCALE_PATTERNS` of src/jazz_scale_app.py (18 patterns, declaration
order preserved). -/
def SCALE_PATTERNS : List (String × List Nat) :=
  [("Ionian (Major)",     [0, 2, 4, 5, 7, 9, 11]),
   ("Dorian",             [0, 2, 3, 5, 7, 9, 10]),
   ("Phrygian",           [0, 1, 3, 5, 7, 8, 10]),
   ("Lydian",             [0, 2, 4, 6, 7, 9, 11]),
   ("Mixo-lydian",        [0, 2, 4, 5, 7, 9, 10]),
   ("Aeolian (Minor)",    [0, 2, 3, 5, 7, 8, 10]),
   ("Locrian",            [0, 1, 3, 5, 6, 8, 10]),
   ("Altered",            [0, 1, 3, 4, 6, 8, 10]),
   ("Combination of Diminished", [0, 1, 3, 4, 6, 7, 9, 10]),
   ("Diminished (W-H)",   [0, 2, 3, 5, 6, 8, 9, 11]),
   ("Wholetone",          [0, 2, 4, 6, 8, 10]),
   ("Phrygian Dominant",  [0, 1, 4, 5, 7, 8, 10]),
   ("Lydian Dominant",    [0, 2, 4, 6, 7, 9, 10]),
   ("Major Pentatonic",   [0, 2, 4, 7, 9]),
   ("Minor Pentatonic",   [0, 3, 5, 7, 10]),
   ("Blues Scale",        [0, 3, 5, 6, 7, 10]),
   ("Bebop Dominant",     [0, 2, 4, 5, 7, 9, 10, 11]),
   ("Harmonic Minor",     [0, 2, 3, 5, 7, 8, 11])]

/-- `INTERVAL_MAP` of src/jazz_scale_app.py. -/
def INTERVAL_MAP : List (Int × String) :=
  [(0, "R"), (1, "b9"), (2, "9"), (3, "b3"), (4, "3"), (5, "11"),
   (6, "#11/b5"), (7, "5"), (8, "b13"), (9, "13"), (10, "b7"), (11, "7")]

/-- `set([(root_midi + interval) % 12 for interval in pattern])`. -/
def scale_pcs (root : Nat) (pattern : List Nat) : Finset Nat :=
  (pattern.map (fun i => (root + i) % 12)).toFinset

/-- `generate_all_scales()` of src/jazz_scale_app.py: for every root 0..11
(outer loop) and every pattern (inner loop), the pitch-class set stored under
the display name composed of the root name and the pattern name.  The Python
dict keys are pairwise distinct, so an insertion-ordered association list is a
faithful model. -/
def generate_all_scales : List (String × Finset Nat) :=
  (List.range 12).flatMap (fun root =>
    SCALE_PATTERNS.map (fun p =>
      (NOTE_NAMES.getD root "" ++ " " ++ p.1, scale_pcs root p.2)))

/-- The per-scale score of `analyze_audio`
(src/jazz_scale_app.py lines 100-107):
`match_count / len(melody_pitch_classes)` guarded by
`len(melody_pitch_classes) > 0`, else 0. -/
def score (pcs scale_notes : Finset Nat) : ℚ :=
  if 0 < pcs.card then ((pcs ∩ scale_notes).card : ℚ) / (pcs.card : ℚ) else 0

/-- The `scores` mapping of `analyze_audio` in catalog declaration order
(Python dict insertion order; catalog keys are unique). -/
def scored_scales (pcs : Finset Nat) (catalog : List (String × Finset Nat)) :
    List (String × ℚ) :=
  catalog.map (fun p => (p.1, score pcs p.2))

/-- `sorted(scores.items(), key=lambda item: item[1], reverse=True)`:
stable descending sort by score. -/
def sorted_scales (pcs : Finset Nat) (catalog : List (String × Finset Nat)) :
    List (String × ℚ) :=
  List.insertionSort scoreRel (scored_scales pcs catalog)

/-- The support filter of `analyze_audio` (lines 75-82):
`min_count = total * frac` and a note is kept iff `count >= min_count`.
The source hard-codes `frac = 0.02`; the spec calls this parameter
`min_support_fraction`, so it is exposed here and instantiated at `0.02`
by `melody_midi_raw`. -/
def support_set (cnt : List (Nat × Nat)) (frac : ℚ) : Finset Nat :=
  ((cnt.filter (fun p => decide ((totalCount cnt : ℚ) * frac ≤ (p.2 : ℚ)))).map
    (fun p => p.1)).toFinset

/-- `melody_midi_notes` before the fallback (lines 75-82), with the
source's hard-coded support fraction 0.02. -/
def melody_midi_raw (notes : List Nat) : Finset Nat :=
  support_set (counter notes) (2 / 100)

/-- `melody_midi_notes` after the fallback guard (lines 80-91): if the
pitch-class image of the supported set is empty while `total_notes > 0`,
replace it by the top 5 most frequent notes (`midi_counts.most_common(5)`). -/
def melody_midi_notes (notes : List Nat) : Finset Nat :=
  let raw := melody_midi_raw notes
  if raw.image (fun n => n % 12) = ∅ ∧ 0 < totalCount (counter notes) then
    ((most_common 5 (counter notes)).map (fun p => p.1)).toFinset
  else raw

/-- `melody_pitch_classes` recomputed from the final note set
(lines 85 and 91). -/
def melody_pitch_classes (notes : List Nat) : Finset Nat :=
  (melody_midi_notes notes).image (fun n => n % 12)

/-- `analyze_audio` (lines 55-115), restricted to its analysis content:
the frames whose confidence exceeds 0.5 and whose pitch exists are quantized;
if none survive the function returns the error message of line 69, otherwise
the stable-sorted score list, the performed MIDI-note set and its pitch-class
set. -/
def analyze_audio (obs : List PitchObservation) :
    Except String (List (String × ℚ) × Finset Nat × Finset Nat) :=
  let notes := surviving obs (5 / 10)
  if notes = [] then .error "有効な音程が検出できませんでした。"
  else
    .ok (sorted_scales (melody_pitch_classes notes) generate_all_scales,
         melody_midi_notes notes, melody_pitch_classes notes)

/-- `name.split()[0]` for the scale names at hand (single spaces). -/
def firstWord (s : String) : String := (s.splitOn " ").headD ""

/-- The display loop of `JazzScaleApp.update_result_list`
(src/jazz_scale_app.py lines 447-463), with loop state
(`display_count`, `rank`, `last_score`) made explicit:
entries whose root fails the root filter are skipped; the loop breaks when
20 entries are shown or the score falls below 0.5; the rank is recomputed as
`display_count + 1` whenever the score differs from the previous one. -/
def update_result_rows (targetRoot : String) :
    List (String × ℚ) → Nat → Nat → ℚ → List (Nat × String × ℚ)
  | [], _, _, _ => []
  | (name, sc) :: rest, dc, rank, last =>
    if targetRoot ≠ "指定なし" ∧ firstWord name ≠ targetRoot then
      update_result_rows targetRoot rest dc rank last
    else if 20 ≤ dc ∨ sc < 5 / 10 then []
    else
      let rank' := if sc ≠ last then dc + 1 else rank
      (rank', name, sc) :: update_result_rows targetRoot rest (dc + 1) rank' sc

/-- `update_result_list` rows for a given root selection, starting from the
initial state `display_count = 0`, `rank = 0`, `last_score = -1`. -/
def update_result_list (targetRoot : String) (scales : List (String × ℚ)) :
    List (Nat × String × ℚ) :=
  update_result_rows targetRoot scales 0 0 (-1)

/-- `INTERVAL_MAP.get(interval, default)` (dict lookup with default). -/
def interval_map_getD (i : Int) (dflt : String) : String :=
  match INTERVAL_MAP.find? (fun p => decide (p.1 = i)) with
  | some p => p.2
  | none => dflt

/-- The degree computation of `JazzScaleApp.update_degree_display`
(src/jazz_scale_app.py lines 502-503):
`interval = (pitch_class - root_idx) % 12` then
`INTERVAL_MAP.get(interval, "?")`.  Python `%` on a positive modulus is
`Int.emod`. -/
def degree_label (pitch_class root_idx : Int) : String :=
  interval_map_getD ((pitch_class - root_idx) % 12) "?"

end JazzScaleApp

namespace JazzScaleAppGuitar

/-- `analyze_audio` of src/jazz_scale_app_guitar.py.  Its backend (pattern
table, `generate_all_scales`, extraction, fallback, scoring, sorting) is
textually identical to src/jazz_scale_app.py in the embedded region, so the
guitar variant is the same function. -/
def analyze_audio : List PitchObservation →
    Except String (List (String × ℚ) × Finset Nat × Finset Nat) :=
  JazzScaleApp.analyze_audio

end JazzScaleAppGuitar

namespace ScaleDetector

/-- `SCALE_PATTERNS` of src/scale_detector.py (19 patterns, declaration
order preserved). -/
def SCALE_PATTERNS : List (String × List Nat) :=
  [("Major",                [0, 2, 4, 5, 7, 9, 11]),
   ("Natural Minor",        [0, 2, 3, 5, 7, 8, 10]),
   ("Harmonic Minor",       [0, 2, 3, 5, 7, 8, 11]),
   ("Melodic Minor",        [0, 2, 3, 5, 7, 9, 11]),
   ("Major Pentatonic",     [0, 2, 4, 7, 9]),
   ("Minor Pentatonic",     [0, 3, 5, 7, 10]),
   ("Ionian (Major)",       [0, 2, 4, 5, 7, 9, 11]),
   ("Dorian",               [0, 2, 3, 5, 7, 9, 10]),
   ("Phrygian",             [0, 1, 3, 5, 7, 8, 10]),
   ("Lydian",               [0, 2, 4, 6, 7, 9, 11]),
   ("Mixo-lydian",          [0, 2, 4, 5, 7, 9, 10]),
   ("Aeolian (Nat.Minor)",  [0, 2, 3, 5, 7, 8, 10]),
   ("Locrian",              [0, 1, 3, 5, 6, 8, 10]),
   ("Chromatic",            [0, 1, 2, 3, 4, 5, 6, 7, 8, 9, 10, 11]),
   ("Altered (Super Locrian)", [0, 1, 3, 4, 6, 8, 10]),
   ("Diminished (H-W)",     [0, 1, 3, 4, 6, 7, 9, 10]),
   ("Diminished (W-H)",     [0, 2, 3, 5, 6, 8, 9, 11]),
   ("Wholetone",            [0, 2, 4, 6, 8, 10]),
   ("Phrygian Dominant (HMP5b)", [0, 1, 4, 5, 7, 8, 10])]

/-- Same construction as in the app file
(`set([(root_midi + interval) % 12 for interval in pattern])`). -/
def scale_pcs (root : Nat) (pattern : List Nat) : Finset Nat :=
  (pattern.map (fun i => (root + i) % 12)).toFinset

/-- `generate_all_scales()` of src/scale_detector.py (root-major,
pattern-minor declaration order). -/
def generate_all_scales : List (String × Finset Nat) :=
  (List.range 12).flatMap (fun root =>
    SCALE_PATTERNS.map (fun p =>
      (NOTE_NAMES.getD root "" ++ " " ++ p.1, scale_pcs root p.2)))

/-- Character-list test for `pat` being an initial segment of `l`. -/
def leadsWith : List Char → List Char → Bool
  | [], _ => true
  | _ :: _, [] => false
  | a :: as, b :: bs => a == b && leadsWith as bs

/-- Character-list substring test, used to model Python's
`'Chromatic' in scale_name`. -/
def infixCheck (pat : List Char) : List Char → Bool
  | [] => leadsWith pat []
  | c :: rest => leadsWith pat (c :: rest) || infixCheck pat rest

/-- `'Chromatic' in scale_name` (src/scale_detector.py line 101). -/
def containsChromatic (name : String) : Bool :=
  infixCheck "Chromatic".toList name.toList

/-- The per-scale score of `find_matching_scales`
(src/scale_detector.py lines 90-104): the match ratio guarded by
`len(melody_pitch_classes) > 0`, then multiplied by 0.99 when the scale name
contains the word Chromatic. -/
def detector_score (pcs scale_notes : Finset Nat) (name : String) : ℚ :=
  let base : ℚ :=
    if 0 < pcs.card then ((pcs ∩ scale_notes).card : ℚ) / (pcs.card : ℚ) else 0
  if containsChromatic name then base * (99 / 100) else base

/-- The `scores` mapping of `find_matching_scales` in catalog declaration
order. -/
def detector_scored (pcs : Finset Nat) (catalog : List (String × Finset Nat)) :
    List (String × ℚ) :=
  catalog.map (fun p => (p.1, detector_score pcs p.2 p.1))

/-- `find_matching_scales(melody_pitch_classes, all_scales)`
(src/scale_detector.py lines 85-107): empty input short-circuits to the empty
list; otherwise the scores are stable-sorted descending. -/
def find_matching_scales (pcs : Finset Nat)
    (catalog : List (String × Finset Nat)) : List (String × ℚ) :=
  if pcs = ∅ then []
  else List.insertionSort scoreRel (detector_scored pcs catalog)

/-- `extract_pitch_classes_from_wav` (src/scale_detector.py lines 51-82),
past the external pitch tracker: frames above the confidence threshold with a
present pitch are quantized and reduced mod 12; an empty stream yields the
empty set (the file prints a warning and returns `set()`); otherwise the
pitch classes whose count reaches 0.2 times the count of the most common one
(`note_counts.most_common(1)[0][1] * 0.2`) are kept. -/
def extract_pitch_classes (obs : List PitchObservation)
    (confidence_threshold : ℚ := 5 / 10) : Finset Nat :=
  let pitch_classes := (surviving obs confidence_threshold).map (fun n => n % 12)
  if pitch_classes = [] then ∅
  else
    let note_counts := counter pitch_classes
    let min_count : ℚ :=
      (((most_common 1 note_counts).headD (0, 0)).2 : ℚ) * (2 / 10)
    ((note_counts.filter (fun p => decide (min_count ≤ (p.2 : ℚ)))).map
      (fun p => p.1)).toFinset

/-- The display loop of `analyze_melody_scale`
(src/scale_detector.py lines 133-151): the loop breaks once `top_n` entries
are shown AND the score strictly drops, or when the score reaches 0; the rank
is recomputed as `displayed_count + 1` whenever the score differs from the
previous one. -/
def melody_display_rows (topN : Nat) :
    List (String × ℚ) → Nat → Nat → ℚ → List (Nat × String × ℚ)
  | [], _, _, _ => []
  | (name, sc) :: rest, dc, rank, last =>
    if topN ≤ dc ∧ sc < last then []
    else if sc ≤ 0 then []
    else
      let rank' := if sc ≠ last then dc + 1 else rank
      (rank', name, sc) :: melody_display_rows topN rest (dc + 1) rank' sc

/-- The rows printed by `analyze_melody_scale`, from the initial state
`displayed_count = 0`, `rank = 0`, `last_score = -1`. -/
def melody_display_list (topN : Nat) (scales : List (String × ℚ)) :
    List (Nat × String × ℚ) :=
  melody_display_rows topN scales 0 0 (-1)

/-- `analyze_melody_scale` (src/scale_detector.py lines 110-151): when the
extracted melody set is empty the run is aborted before any matching
(プリント「分析を終了します。」), modelled as `none`; otherwise the printed
ranked rows. -/
def analyze_melody_scale (obs : List PitchObservation) (topN : Nat := 5) :
    Option (List (Nat × String × ℚ)) :=
  let melody_notes := extract_pitch_classes obs (5 / 10)
  if melody_notes = ∅ then none
  else some (melody_display_list topN
    (find_matching_scales melody_notes generate_all_scales))

end ScaleDetector

/-- Modelled from the spec (section 4.4): the fixed 12-entry interval-name
table, indexed by chromatic distance from the root, used for the refinement
comparison of the degree labeller against the spec's wording. -/
def INTERVAL_TABLE : List String :=
  ["R", "b9", "9", "b3", "3", "11", "#11/b5", "5", "b13", "13", "b7", "7"]

/-- Count associated with a key in a counter association list (0 if the key
is absent); proof-side helper for relating `counter` to `List.count`. -/
def lookupCount : List (Nat × Nat) → Nat → Nat
  | [], _ => 0
  | (a, k) :: rest, n => if a = n then k else lookupCount rest n

/-! Helper lemmas about `bump`, `counter`, `lookupCount` and `totalCount`. -/

theorem totalCount_bump (m : Nat) (acc : List (Nat × Nat)) :
    totalCount (bump m acc) = totalCount acc + 1 := by
  induction acc with
  | nil => simp [bump, totalCount]
  | cons head tail ih =>
    obtain ⟨a, k⟩ := head
    by_cases h : a = m <;> simp [bump, h, totalCount] at ih ⊢ <;> omega

theorem totalCount_foldl_bump (l : List Nat) :
    ∀ acc : List (Nat × Nat),
      totalCount (l.foldl (fun a m => bump m a) acc) = totalCount acc + l.length := by
  induction l with
  | nil => simp
  | cons m t ih =>
    intro acc
    simp only [List.foldl_cons, List.length_cons, ih (bump m acc), totalCount_bump]
    omega

theorem totalCount_counter (l : List Nat) : totalCount (counter l) = l.length := by
  simpa [counter, totalCount] using totalCount_foldl_bump l []

theorem lookupCount_bump_same (m : Nat) (acc : List (Nat × Nat)) :
    lookupCount (bump m acc) m = lookupCount acc m + 1 := by
  induction acc with
  | nil => simp [bump, lookupCount]
  | cons head tail ih =>
    obtain ⟨a, k⟩ := head
    by_cases h : a = m <;> simp [bump, h, lookupCount, ih]

theorem lookupCount_bump_other {m n : Nat} (h : n ≠ m) (acc : List (Nat × Nat)) :
    lookupCount (bump m acc) n = lookupCount acc n := by
  induction acc with
  | nil => simp [bump, lookupCount, Ne.symm h]
  | cons head tail ih =>
    obtain ⟨a, k⟩ := head
    by_cases ha : a = m
    · subst ha
      simp [bump, lookupCount, Ne.symm h]
    · simp [bump, ha, lookupCount, ih]

theorem lookupCount_foldl_bump (l : List Nat) :
    ∀ (acc : List (Nat × Nat)) (n : Nat),
      lookupCount (l.foldl (fun a m => bump m a) acc) n =
        lookupCount acc n + l.count n := by
  induction l with
  | nil => simp
  | cons m t ih =>
    intro acc n
    by_cases h : n = m
    · subst h
      simp only [List.foldl_cons, ih (bump n acc), lookupCount_bump_same,
        List.count_cons]
      simp
      omega
    · simp only [List.foldl_cons, ih (bump m acc), lookupCount_bump_other h,
        List.count_cons]
      have : ¬ (m == n) := by simpa using fun hc => h hc.symm
      simp [this]

theorem lookupCount_counter (l : List Nat) (n : Nat) :
    lookupCount (counter l) n = l.count n := by
  simpa [counter, lookupCount] using lookupCount_foldl_bump l [] n

theorem bump_cons (m a k : Nat) (t : List (Nat × Nat)) :
    bump m ((a, k) :: t) =
      if a = m then (a, k + 1) :: t else (a, k) :: bump m t := rfl

theorem bump_pos {acc : List (Nat × Nat)} (h : ∀ p ∈ acc, 0 < p.2) (m : Nat) :
    ∀ p ∈ bump m acc, 0 < p.2 := by
  induction acc with
  | nil =>
    intro p hp
    simp only [bump, List.mem_singleton] at hp
    simp [hp]
  | cons head tail ih =>
    obtain ⟨a, k⟩ := head
    intro p hp
    rw [bump_cons] at hp
    by_cases ha : a = m
    · rw [if_pos ha] at hp
      rcases List.mem_cons.1 hp with hp | hp
      · simp [hp]
      · exact h p (List.mem_cons_of_mem _ hp)
    · rw [if_neg ha] at hp
      rcases List.mem_cons.1 hp with hp | hp
      · exact hp ▸ h (a, k) (List.mem_cons_self _ _)
      · exact ih (fun q hq => h q (List.mem_cons_of_mem _ hq)) p hp

theorem counter_pos (l : List Nat) : ∀ p ∈ counter l, 0 < p.2 := by
  have key : ∀ (t : List Nat) (acc : List (Nat × Nat)), (∀ p ∈ acc, 0 < p.2) →
      ∀ p ∈ t.foldl (fun a m => bump m a) acc, 0 < p.2 := by
    intro t
    induction t with
    | nil => intro acc h; simpa using h
    | cons m rest ih =>
      intro acc h
      simpa using ih (bump m acc) (bump_pos h m)
  exact key l [] (by simp)

theorem bump_keys_of_mem {m : Nat} {acc : List (Nat × Nat)}
    (h : m ∈ acc.map Prod.fst) :
    (bump m acc).map Prod.fst = acc.map Prod.fst := by
  induction acc with
  | nil => simp at h
  | cons head tail ih =>
    obtain ⟨a, k⟩ := head
    rw [bump_cons]
    by_cases ha : a = m
    · rw [if_pos ha]; simp
    · rw [if_neg ha]
      simp only [List.map_cons, List.mem_cons] at h
      rcases h with h | h
      · exact absurd h.symm ha
      · simp [ih h]

theorem bump_of_not_mem {m : Nat} {acc : List (Nat × Nat)}
    (h : m ∉ acc.map Prod.fst) : bump m acc = acc ++ [(m, 1)] := by
  induction acc with
  | nil => simp [bump]
  | cons head tail ih =>
    obtain ⟨a, k⟩ := head
    simp only [List.map_cons, List.mem_cons] at h
    push_neg at h
    rw [bump_cons, if_neg (Ne.symm h.1), ih h.2]
    simp

theorem bump_keys_nodup {m : Nat} {acc : List (Nat × Nat)}
    (h : (acc.map Prod.fst).Nodup) : ((bump m acc).map Prod.fst).Nodup := by
  by_cases hm : m ∈ acc.map Prod.fst
  · rw [bump_keys_of_mem hm]; exact h
  · rw [bump_of_not_mem hm, List.map_append]
    refine List.Nodup.append h (List.nodup_singleton m) ?_
    intro x hx hxm
    rw [List.map_singleton, List.mem_singleton] at hxm
    subst hxm
    exact hm hx

theorem counter_keys_nodup (l : List Nat) : ((counter l).map Prod.fst).Nodup := by
  have key : ∀ (t : List Nat) (acc : List (Nat × Nat)), (acc.map Prod.fst).Nodup →
      (((t.foldl (fun a m => bump m a) acc).map Prod.fst)).Nodup := by
    intro t
    induction t with
    | nil => intro acc h; simpa using h
    | cons m rest ih =>
      intro acc h
      simpa using ih (bump m acc) (bump_keys_nodup h)
  exact key l [] (by simp)

theorem lookupCount_of_mem {acc : List (Nat × Nat)} {n c : Nat}
    (hnd : (acc.map Prod.fst).Nodup) (h : (n, c) ∈ acc) :
    lookupCount acc n = c := by
  induction acc with
  | nil => simp at h
  | cons head tail ih =>
    obtain ⟨a, k⟩ := head
    simp only [List.map_cons, List.nodup_cons] at hnd
    rcases List.mem_cons.1 h with h | h
    · rw [Prod.mk.injEq] at h
      obtain ⟨rfl, rfl⟩ := h
      simp [lookupCount]
    · have hne : a ≠ n := by
        intro hc
        exact hnd.1 (hc ▸ List.mem_map_of_mem Prod.fst h)
      simp only [lookupCount, if_neg hne]
      exact ih hnd.2 h

theorem mem_of_lookupCount_pos {acc : List (Nat × Nat)} {n : Nat}
    (h : 0 < lookupCount acc n) : (n, lookupCount acc n) ∈ acc := by
  induction acc with
  | nil => simp [lookupCount] at h
  | cons head tail ih =>
    obtain ⟨a, k⟩ := head
    by_cases ha : a = n
    · subst ha
      simp [lookupCount]
    · simp only [lookupCount, if_neg ha] at h ⊢
      exact List.mem_cons_of_mem _ (ih h)

theorem mem_counter_iff {l : List Nat} {n c : Nat} :
    (n, c) ∈ counter l ↔ c = l.count n ∧ 0 < c := by
  constructor
  · intro h
    have hc := lookupCount_of_mem (counter_keys_nodup l) h
    rw [lookupCount_counter] at hc
    exact ⟨hc.symm, counter_pos l (n, c) h⟩
  · rintro ⟨rfl, hpos⟩
    have hl : 0 < lookupCount (counter l) n := by rwa [lookupCount_counter]
    have := mem_of_lookupCount_pos hl
    rwa [lookupCount_counter] at this

/-! Helper lemmas about the extraction of src/jazz_scale_app.py. -/

theorem mem_support_set {cnt : List (Nat × Nat)} {f : ℚ} {n : Nat} :
    n ∈ JazzScaleApp.support_set cnt f ↔
      ∃ c, (n, c) ∈ cnt ∧ (totalCount cnt : ℚ) * f ≤ (c : ℚ) := by
  constructor
  · intro h
    simp only [JazzScaleApp.support_set, List.mem_toFinset, List.mem_map,
      List.mem_filter, decide_eq_true_eq] at h
    obtain ⟨p, ⟨hp, hle⟩, hfst⟩ := h
    exact ⟨p.2, by rw [show (n, p.2) = p from by rw [Prod.ext_iff]; exact ⟨hfst.symm, rfl⟩]; exact hp, hle⟩
  · rintro ⟨c, hc, hle⟩
    simp only [JazzScaleApp.support_set, List.mem_toFinset, List.mem_map,
      List.mem_filter, decide_eq_true_eq]
    exact ⟨(n, c), ⟨hc, hle⟩, rfl⟩

theorem mem_support_counter {l : List Nat} {f : ℚ} {n : Nat} :
    n ∈ JazzScaleApp.support_set (counter l) f ↔
      ((l.length : ℚ) * f ≤ (l.count n : ℚ) ∧ 0 < l.count n) := by
  rw [mem_support_set]
  constructor
  · rintro ⟨c, hc, hle⟩
    obtain ⟨rfl, hpos⟩ := mem_counter_iff.1 hc
    rw [totalCount_counter] at hle
    exact ⟨hle, hpos⟩
  · rintro ⟨hle, hpos⟩
    exact ⟨l.count n, mem_counter_iff.2 ⟨rfl, hpos⟩, by rwa [totalCount_counter]⟩

theorem melody_midi_raw_empty_of_nil : JazzScaleApp.melody_midi_raw [] = ∅ := by
  rw [JazzScaleApp.melody_midi_raw]
  rfl

theorem melody_midi_notes_of_raw_ne_empty {notes : List Nat}
    (h : JazzScaleApp.melody_midi_raw notes ≠ ∅) :
    JazzScaleApp.melody_midi_notes notes = JazzScaleApp.melody_midi_raw notes := by
  rw [JazzScaleApp.melody_midi_notes]
  simp only [Finset.image_eq_empty]
  rw [if_neg]
  rintro ⟨he, -⟩
  exact h he

theorem melody_midi_notes_of_raw_empty {notes : List Nat}
    (hraw : JazzScaleApp.melody_midi_raw notes = ∅)
    (hne : notes ≠ []) :
    JazzScaleApp.melody_midi_notes notes =
      ((most_common 5 (counter notes)).map (fun p => p.1)).toFinset := by
  rw [JazzScaleApp.melody_midi_notes]
  simp only [Finset.image_eq_empty]
  rw [if_pos]
  refine ⟨hraw, ?_⟩
  rw [totalCount_counter]
  exact List.length_pos.2 hne

theorem counter_ne_nil {l : List Nat} (h : l ≠ []) : counter l ≠ [] := by
  obtain ⟨m, t, rfl⟩ := List.exists_cons_of_ne_nil h
  have : (m, (m :: t).count m) ∈ counter (m :: t) :=
    mem_counter_iff.2 ⟨rfl, by simp [List.count_cons]⟩
  exact List.ne_nil_of_mem this

theorem most_common_ne_nil {l : List Nat} (h : l ≠ []) :
    most_common 5 (counter l) ≠ [] := by
  rw [most_common]
  rw [Ne, List.take_eq_nil_iff]
  push_neg
  refine ⟨by omega, ?_⟩
  intro hs
  have := List.length_insertionSort countRel (counter l)
  rw [hs] at this
  exact counter_ne_nil h (List.eq_nil_of_length_eq_zero this.symm)

/-! Helper lemmas about the two display loops. -/

theorem urr_head (tr : String) :
    ∀ (l : List (String × ℚ)) (dc rank : Nat) (last : ℚ)
      (x : Nat × String × ℚ) (rest' : List (Nat × String × ℚ)),
      JazzScaleApp.update_result_rows tr l dc rank last = x :: rest' →
      (x.2.2 = last → x.1 = rank) ∧ (x.2.2 ≠ last → x.1 = dc + 1) := by
  intro l
  induction l with
  | nil =>
    intro dc rank last x rest' h
    simp [JazzScaleApp.update_result_rows] at h
  | cons hd tl ih =>
    intro dc rank last x rest' h
    obtain ⟨name, sc⟩ := hd
    simp only [JazzScaleApp.update_result_rows] at h
    by_cases hskip : tr ≠ "指定なし" ∧ JazzScaleApp.firstWord name ≠ tr
    · rw [if_pos hskip] at h
      exact ih dc rank last x rest' h
    · rw [if_neg hskip] at h
      by_cases hbreak : 20 ≤ dc ∨ sc < 5 / 10
      · rw [if_pos hbreak] at h
        simp at h
      · rw [if_neg hbreak] at h
        injection h with h1 h2
        subst h1
        by_cases hs : sc = last
        · constructor
          · intro _
            simp [hs]
          · intro hne
            exact absurd hs hne
        · constructor
          · intro heq
            exact absurd heq hs
          · intro _
            simp [hs]

theorem urr_pair (tr : String) :
    ∀ (l : List (String × ℚ)) (dc rank : Nat) (last : ℚ)
      (pre post : List (Nat × String × ℚ)) (a b : Nat × String × ℚ),
      JazzScaleApp.update_result_rows tr l dc rank last = pre ++ a :: b :: post →
      (b.2.2 = a.2.2 → b.1 = a.1) ∧
      (b.2.2 ≠ a.2.2 → b.1 = dc + pre.length + 2) := by
  intro l
  induction l with
  | nil =>
    intro dc rank last pre post a b h
    simp [JazzScaleApp.update_result_rows] at h
  | cons hd tl ih =>
    intro dc rank last pre post a b h
    obtain ⟨name, sc⟩ := hd
    simp only [JazzScaleApp.update_result_rows] at h
    by_cases hskip : tr ≠ "指定なし" ∧ JazzScaleApp.firstWord name ≠ tr
    · rw [if_pos hskip] at h
      exact ih dc rank last pre post a b h
    · rw [if_neg hskip] at h
      by_cases hbreak : 20 ≤ dc ∨ sc < 5 / 10
      · rw [if_pos hbreak] at h
        exact absurd h.symm (List.append_ne_nil_of_right_ne_nil pre (by simp))
      · rw [if_neg hbreak] at h
        cases pre with
        | nil =>
          simp only [List.nil_append] at h
          injection h with h1 h2
          subst h1
          have hh := urr_head tr tl (dc + 1) (if sc ≠ last then dc + 1 else rank)
            sc b post h2
          constructor
          · intro hb
            have := hh.1 (by simpa using hb)
            simpa using this
          · intro hb
            have := hh.2 (by simpa using hb)
            simpa using this
        | cons p pre' =>
          simp only [List.cons_append] at h
          injection h with h1 h2
          have := ih (dc + 1) (if sc ≠ last then dc + 1 else rank) sc pre' post a b h2
          refine ⟨this.1, fun hb => ?_⟩
          rw [this.2 hb]
          simp only [List.length_cons]
          omega

theorem urr_length (tr : String) :
    ∀ (l : List (String × ℚ)) (dc rank : Nat) (last : ℚ),
      (JazzScaleApp.update_result_rows tr l dc rank last).length ≤ 20 - dc := by
  intro l
  induction l with
  | nil =>
    intro dc rank last
    simp [JazzScaleApp.update_result_rows]
  | cons hd tl ih =>
    intro dc rank last
    obtain ⟨name, sc⟩ := hd
    simp only [JazzScaleApp.update_result_rows]
    by_cases hskip : tr ≠ "指定なし" ∧ JazzScaleApp.firstWord name ≠ tr
    · rw [if_pos hskip]
      exact ih dc rank last
    · rw [if_neg hskip]
      by_cases hbreak : 20 ≤ dc ∨ sc < 5 / 10
      · rw [if_pos hbreak]
        simp
      · rw [if_neg hbreak]
        push_neg at hbreak
        have := ih (dc + 1) (if sc ≠ last then dc + 1 else rank) sc
        simp only [List.length_cons]
        omega

theorem urr_floor (tr : String) :
    ∀ (l : List (String × ℚ)) (dc rank : Nat) (last : ℚ),
      ∀ row ∈ JazzScaleApp.update_result_rows tr l dc rank last,
        (5 / 10 : ℚ) ≤ row.2.2 := by
  intro l
  induction l with
  | nil =>
    intro dc rank last row hrow
    simp [JazzScaleApp.update_result_rows] at hrow
  | cons hd tl ih =>
    intro dc rank last row hrow
    obtain ⟨name, sc⟩ := hd
    simp only [JazzScaleApp.update_result_rows] at hrow
    by_cases hskip : tr ≠ "指定なし" ∧ JazzScaleApp.firstWord name ≠ tr
    · rw [if_pos hskip] at hrow
      exact ih dc rank last row hrow
    · rw [if_neg hskip] at hrow
      by_cases hbreak : 20 ≤ dc ∨ sc < 5 / 10
      · rw [if_pos hbreak] at hrow
        simp at hrow
      · rw [if_neg hbreak] at hrow
        push_neg at hbreak
        rcases List.mem_cons.1 hrow with hrow | hrow
        · rw [hrow]
          simpa using hbreak.2
        · exact ih (dc + 1) _ sc row hrow

theorem mdr_head (topN : Nat) :
    ∀ (l : List (String × ℚ)) (dc rank : Nat) (last : ℚ)
      (x : Nat × String × ℚ) (rest' : List (Nat × String × ℚ)),
      ScaleDetector.melody_display_rows topN l dc rank last = x :: rest' →
      (x.2.2 = last → x.1 = rank) ∧ (x.2.2 ≠ last → x.1 = dc + 1) := by
  intro l
  induction l with
  | nil =>
    intro dc rank last x rest' h
    simp [ScaleDetector.melody_display_rows] at h
  | cons hd tl ih =>
    intro dc rank last x rest' h
    obtain ⟨name, sc⟩ := hd
    simp only [ScaleDetector.melody_display_rows] at h
    by_cases hstop : topN ≤ dc ∧ sc < last
    · rw [if_pos hstop] at h
      simp at h
    · rw [if_neg hstop] at h
      by_cases hzero : sc ≤ 0
      · rw [if_pos hzero] at h
        simp at h
      · rw [if_neg hzero] at h
        injection h with h1 h2
        subst h1
        by_cases hs : sc = last
        · exact ⟨fun _ => by simp [hs], fun hne => absurd hs hne⟩
        · exact ⟨fun heq => absurd heq hs, fun _ => by simp [hs]⟩

theorem mdr_pair (topN : Nat) :
    ∀ (l : List (String × ℚ)) (dc rank : Nat) (last : ℚ)
      (pre post : List (Nat × String × ℚ)) (a b : Nat × String × ℚ),
      ScaleDetector.melody_display_rows topN l dc rank last = pre ++ a :: b :: post →
      (b.2.2 = a.2.2 → b.1 = a.1) ∧
      (b.2.2 ≠ a.2.2 → b.1 = dc + pre.length + 2) := by
  intro l
  induction l with
  | nil =>
    intro dc rank last pre post a b h
    simp [ScaleDetector.melody_display_rows] at h
  | cons hd tl ih =>
    intro dc rank last pre post a b h
    obtain ⟨name, sc⟩ := hd
    simp only [ScaleDetector.melody_display_rows] at h
    by_cases hstop : topN ≤ dc ∧ sc < last
    · rw [if_pos hstop] at h
      exact absurd h.symm (List.append_ne_nil_of_right_ne_nil pre (by simp))
    · rw [if_neg hstop] at h
      by_cases hzero : sc ≤ 0
      · rw [if_pos hzero] at h
        exact absurd h.symm (List.append_ne_nil_of_right_ne_nil pre (by simp))
      · rw [if_neg hzero] at h
        cases pre with
        | nil =>
          simp only [List.nil_append] at h
          injection h with h1 h2
          subst h1
          have hh := mdr_head topN tl (dc + 1) (if sc ≠ last then dc + 1 else rank)
            sc b post h2
          constructor
          · intro hb
            have := hh.1 (by simpa using hb)
            simpa using this
          · intro hb
            have := hh.2 (by simpa using hb)
            simpa using this
        | cons p pre' =>
          simp only [List.cons_append] at h
          injection h with h1 h2
          have := ih (dc + 1) (if sc ≠ last then dc + 1 else rank) sc pre' post a b h2
          refine ⟨this.1, fun hb => ?_⟩
          rw [this.2 hb]
          simp only [List.length_cons]
          omega

theorem mdr_floor (topN : Nat) :
    ∀ (l : List (String × ℚ)) (dc rank : Nat) (last : ℚ),
      ∀ row ∈ ScaleDetector.melody_display_rows topN l dc rank last,
        (0 : ℚ) < row.2.2 := by
  intro l
  induction l with
  | nil =>
    intro dc rank last row hrow
    simp [ScaleDetector.melody_display_rows] at hrow
  | cons hd tl ih =>
    intro dc rank last row hrow
    obtain ⟨name, sc⟩ := hd
    simp only [ScaleDetector.melody_display_rows] at hrow
    by_cases hstop : topN ≤ dc ∧ sc < last
    · rw [if_pos hstop] at hrow
      simp at hrow
    · rw [if_neg hstop] at hrow
      by_cases hzero : sc ≤ 0
      · rw [if_pos hzero] at hrow
        simp at hrow
      · rw [if_neg hzero] at hrow
        rcases List.mem_cons.1 hrow with hrow | hrow
        · rw [hrow]
          simpa using not_le.1 hzero
        · exact ih (dc + 1) _ sc row hrow

/-! Helper lemmas for stability of the descending score sort. -/

theorem filter_orderedInsert_score (s : ℚ) (x : String × ℚ) :
    ∀ l : List (String × ℚ),
      (List.orderedInsert scoreRel x l).filter (fun y => decide (y.2 = s)) =
        if x.2 = s then x :: l.filter (fun y => decide (y.2 = s))
        else l.filter (fun y => decide (y.2 = s)) := by
  intro l
  induction l with
  | nil =>
    by_cases hx : x.2 = s <;> simp [List.orderedInsert, List.filter, hx]
  | cons y t ih =>
    by_cases hr : scoreRel x y
    · rw [List.orderedInsert, if_pos hr]
      by_cases hx : x.2 = s <;> simp [List.filter_cons, hx]
    · rw [List.orderedInsert, if_neg hr]
      have hlt : x.2 < y.2 := not_le.1 hr
      by_cases hx : x.2 = s
      · have hy : ¬ (y.2 = s) := by
          intro hy
          rw [hx, hy] at hlt
          exact lt_irrefl s hlt
        simp only [List.filter_cons, hy, decide_eq_true_eq, if_pos hx,
          decide_eq_false hy, Bool.false_eq_true, if_false]
        rw [ih, if_pos hx]
      · by_cases hy : y.2 = s <;>
          simp [List.filter_cons, hy, ih, hx]

theorem filter_insertionSort_score (s : ℚ) :
    ∀ l : List (String × ℚ),
      (List.insertionSort scoreRel l).filter (fun y => decide (y.2 = s)) =
        l.filter (fun y => decide (y.2 = s)) := by
  intro l
  induction l with
  | nil => simp
  | cons x t ih =>
    rw [List.insertionSort, filter_orderedInsert_score]
    by_cases hx : x.2 = s <;> simp [List.filter_cons, hx, ih]

/-! Claim theorems. -/

/-- C1: for every observation stream in which no frame survives Step 1
filtering (pitch present and confidence strictly above the 0.5 threshold),
the app's `analyze_audio` (and the guitar variant's) returns the
no-pitch-detected error, the standalone detector's extraction yields the
empty-set failure sentinel, and `analyze_melody_scale` aborts without
producing any ranking — the empty set is never passed on as a successful
result. -/
theorem claim1_no_pitch_detected (obs : List PitchObservation)
    (h : ∀ o ∈ obs, o.midi = none ∨ o.conf ≤ 5 / 10) :
    JazzScaleApp.analyze_audio obs = .error "有効な音程が検出できませんでした。" ∧
    JazzScaleAppGuitar.analyze_audio obs = .error "有効な音程が検出できませんでした。" ∧
    ScaleDetector.extract_pitch_classes obs (5 / 10) = ∅ ∧
    ScaleDetector.analyze_melody_scale obs 5 = none := by
  have hs : surviving obs (5 / 10) = [] := by
    rw [surviving, List.filterMap_eq_nil_iff]
    intro o ho
    rcases h o ho with hm | hc
    · by_cases hlt : (5 / 10 : ℚ) < o.conf <;> simp [hlt, hm]
    · rw [if_neg (not_lt.2 hc)]
  have hex : ScaleDetector.extract_pitch_classes obs (5 / 10) = ∅ := by
    rw [ScaleDetector.extract_pitch_classes, hs]
    simp
  have happ : JazzScaleApp.analyze_audio obs =
      .error "有効な音程が検出できませんでした。" := by
    rw [JazzScaleApp.analyze_audio]
    simp [hs]
  refine ⟨happ, happ, hex, ?_⟩
  rw [ScaleDetector.analyze_melody_scale]
  simp [hex]

/-- Witness for C1: the spec's empty-stream scenario — every frame carries a
pitch at confidence 0.2, below the 0.5 threshold. -/
theorem claim1_witness :
    JazzScaleApp.analyze_audio (List.replicate 3 ⟨some 60, 2 / 10⟩) =
      .error "有効な音程が検出できませんでした。" ∧
    ScaleDetector.analyze_melody_scale (List.replicate 3 ⟨some 60, 2 / 10⟩) 5 =
      none := by
  have h := claim1_no_pitch_detected (List.replicate 3 ⟨some 60, 2 / 10⟩)
    (by with_unfolding_all decide)
  exact ⟨h.1, h.2.2.2⟩

/-- C2 counterexample: in the standalone detector, the catalog entry
"C Chromatic" (whose pitch-class set contains every pitch class, hence is a
superset of the performed set {0}) is scored 0.99 rather than the claimed
ratio |{0} ∩ scale| / |{0}| = 1, so the matcher's score is neither the
claimed ratio nor 1.0 on a superset. -/
theorem claim2_chromatic_counterexample :
    ("C Chromatic", ScaleDetector.scale_pcs 0 [0, 1, 2, 3, 4, 5, 6, 7, 8, 9, 10, 11]) ∈
      ScaleDetector.generate_all_scales ∧
    ({0} : Finset Nat) ⊆ ScaleDetector.scale_pcs 0 [0, 1, 2, 3, 4, 5, 6, 7, 8, 9, 10, 11] ∧
    ScaleDetector.detector_score {0}
      (ScaleDetector.scale_pcs 0 [0, 1, 2, 3, 4, 5, 6, 7, 8, 9, 10, 11]) "C Chromatic" = 99 / 100 ∧
    ScaleDetector.detector_score {0}
      (ScaleDetector.scale_pcs 0 [0, 1, 2, 3, 4, 5, 6, 7, 8, 9, 10, 11]) "C Chromatic" ≠
      ((({0} : Finset Nat) ∩ ScaleDetector.scale_pcs 0 [0, 1, 2, 3, 4, 5, 6, 7, 8, 9, 10, 11]).card : ℚ) /
        (({0} : Finset Nat).card : ℚ) ∧
    ScaleDetector.detector_score {0}
      (ScaleDetector.scale_pcs 0 [0, 1, 2, 3, 4, 5, 6, 7, 8, 9, 10, 11]) "C Chromatic" ≠ 1 := by
  refine ⟨?_, ?_, ?_, ?_, ?_⟩ <;> with_unfolding_all decide

/-- C2 (amended): for every non-empty performed pitch-class set, the app's
score is exactly |performed ∩ scale| / |performed| and equals 1 iff the
performed set is contained in the scale set; the detector's score agrees
with the app's except on scales whose name contains "Chromatic" (whose score
is multiplied by 0.99). -/
theorem claim2_match_ratio (pcs scale_notes : Finset Nat) (nm : String)
    (h : pcs ≠ ∅) :
    JazzScaleApp.score pcs scale_notes =
      ((pcs ∩ scale_notes).card : ℚ) / (pcs.card : ℚ) ∧
    (JazzScaleApp.score pcs scale_notes = 1 ↔ pcs ⊆ scale_notes) ∧
    (ScaleDetector.containsChromatic nm = false →
      ScaleDetector.detector_score pcs scale_notes nm =
        JazzScaleApp.score pcs scale_notes) := by
  have hpos : 0 < pcs.card := Finset.card_pos.2 (Finset.nonempty_iff_ne_empty.2 h)
  have hcne : (pcs.card : ℚ) ≠ 0 := Nat.cast_ne_zero.2 (Nat.pos_iff_ne_zero.1 hpos)
  refine ⟨?_, ?_, ?_⟩
  · rw [JazzScaleApp.score, if_pos hpos]
  · rw [JazzScaleApp.score, if_pos hpos, div_eq_one_iff_eq hcne, Nat.cast_inj]
    constructor
    · intro hcard
      exact Finset.inter_eq_left.1
        (Finset.eq_of_subset_of_card_le Finset.inter_subset_left (le_of_eq hcard.symm))
    · intro hsub
      rw [Finset.inter_eq_left.2 hsub]
  · intro hch
    rw [ScaleDetector.detector_score, JazzScaleApp.score]
    simp only [hch, Bool.false_eq_true, if_false]

/-- Witness for C2 at the performed set {0} and the app catalog's first
C-rooted scale. -/
theorem claim2_witness :
    JazzScaleApp.score {0} {0, 4, 7} =
      ((({0} : Finset Nat) ∩ {0, 4, 7}).card : ℚ) / (({0} : Finset Nat).card : ℚ) ∧
    (JazzScaleApp.score {0} {0, 4, 7} = 1 ↔ ({0} : Finset Nat) ⊆ {0, 4, 7}) := by
  have h := claim2_match_ratio {0} {0, 4, 7} "C Ionian (Major)"
    (by with_unfolding_all decide)
  exact ⟨h.1, h.2.1⟩

/-- C3 counterexample: a surviving stream of 51 frames on 51 pairwise
distinct notes (all at confidence 0.9).  No note reaches the 2% support
threshold, so the top-5 fallback retains note 0 even though its count 1 is
strictly below 0.02 × 51 — the claimed "if and only if" fails. -/
theorem claim3_support_counterexample :
    0 ∈ JazzScaleApp.melody_midi_notes
        (surviving ((List.range 51).map (fun n => ⟨some n, 9 / 10⟩)) (5 / 10)) ∧
    ((surviving ((List.range 51).map (fun n => ⟨some n, 9 / 10⟩)) (5 / 10)).count 0 : ℚ) <
      ((surviving ((List.range 51).map (fun n => ⟨some n, 9 / 10⟩)) (5 / 10)).length : ℚ) *
        (2 / 100) := by
  constructor <;> with_unfolding_all decide

/-- C3 (amended): whenever at least one note reaches the support threshold
(no fallback), an AbsoluteNote is kept iff its count is at least the support
fraction (0.02 in the code) times the total count of surviving observations;
and on the claim's concrete 101-frame stream the extractor returns exactly
{60}, both under the code's 0.02 and under the claim's 0.05 support
fraction. -/
theorem claim3_support_retention :
    (∀ (notes : List Nat) (n : Nat),
        JazzScaleApp.melody_midi_raw notes ≠ ∅ →
        (n ∈ JazzScaleApp.melody_midi_notes notes ↔
          (notes.length : ℚ) * (2 / 100) ≤ (notes.count n : ℚ))) ∧
    JazzScaleApp.melody_midi_notes
      (surviving (List.replicate 100 ⟨some 60, 9 / 10⟩ ++ [⟨some 61, 9 / 10⟩]) (5 / 10)) =
      {60} ∧
    JazzScaleApp.support_set
      (counter (surviving (List.replicate 100 ⟨some 60, 9 / 10⟩ ++ [⟨some 61, 9 / 10⟩]) (5 / 10)))
      (5 / 100) = {60} := by
  refine ⟨?_, by with_unfolding_all rfl, by with_unfolding_all rfl⟩
  intro notes n hraw
  have hnil : notes ≠ [] := by
    intro hn
    rw [hn] at hraw
    exact hraw melody_midi_raw_empty_of_nil
  rw [melody_midi_notes_of_raw_ne_empty hraw, JazzScaleApp.melody_midi_raw,
    mem_support_counter]
  constructor
  · rintro ⟨hle, -⟩
    exact hle
  · intro hle
    refine ⟨hle, ?_⟩
    have hlen : 0 < notes.length := List.length_pos.2 hnil
    have hq : (0 : ℚ) < (notes.length : ℚ) * (2 / 100) :=
      mul_pos (by exact_mod_cast hlen) (by norm_num)
    have hc : (0 : ℚ) < (notes.count n : ℚ) := lt_of_lt_of_le hq hle
    exact_mod_cast hc

/-- Witness for C3 on a two-frame stream where note 60 meets the support
threshold. -/
theorem claim3_witness :
    JazzScaleApp.melody_midi_raw [60, 60] ≠ ∅ ∧
    (60 ∈ JazzScaleApp.melody_midi_notes [60, 60] ↔
      (([60, 60] : List Nat).length : ℚ) * (2 / 100) ≤
        (([60, 60] : List Nat).count 60 : ℚ)) :=
  ⟨by with_unfolding_all decide,
   claim3_support_retention.1 [60, 60] 60 (by with_unfolding_all decide)⟩

/-- C4 counterexample: invoked on the empty performed set with the full
catalog, the detector's matcher silently returns the empty ranking instead
of failing with an error — the guard at the top of `find_matching_scales`
is `return []`, and the code has no error channel at all. -/
theorem claim4_empty_input_counterexample :
    ScaleDetector.find_matching_scales ∅ ScaleDetector.generate_all_scales = [] := by
  with_unfolding_all rfl

/-- C4 (amended): on an empty performed pitch-class set the detector's
matcher silently returns the empty ranking (for any catalog), and the app's
scoring loop silently assigns score 0 to every scale; neither fails. -/
theorem claim4_empty_input_silent :
    (∀ catalog : List (String × Finset Nat),
       ScaleDetector.find_matching_scales ∅ catalog = []) ∧
    (∀ scale_notes : Finset Nat, JazzScaleApp.score ∅ scale_notes = 0) := by
  constructor
  · intro catalog
    rw [ScaleDetector.find_matching_scales, if_pos rfl]
  · intro s
    rw [JazzScaleApp.score, if_neg]
    simp

/-- C5 counterexample: three catalog entries scored 1, 1, 0.6 are displayed
with ranks 1, 1, 3 — after the tie the rank jumps to the display position
plus one (competition ranking), not to 2 as the claimed "1,1,2,3,3" shared
dense ranking requires. -/
theorem claim5_rank_counterexample :
    JazzScaleApp.update_result_list "指定なし"
        [("C Ionian (Major)", 1), ("C Lydian", 1), ("C Wholetone", 3 / 5)] =
      [(1, "C Ionian (Major)", 1), (1, "C Lydian", 1), (3, "C Wholetone", 3 / 5)] ∧
    (JazzScaleApp.update_result_list "指定なし"
        [("C Ionian (Major)", 1), ("C Lydian", 1), ("C Wholetone", 3 / 5)]).map
      (fun r => r.1) ≠ [1, 1, 2] := by
  constructor <;> with_unfolding_all decide

/-- C5 (amended): in both display loops, consecutive displayed entries with
equal scores share a rank, and an entry whose score differs from its
predecessor receives rank equal to its 1-based display position
(pre.length + 2 for the successor of position pre.length), i.e.
competition-style "1,1,3" ranking rather than dense "1,1,2" ranking. -/
theorem claim5_rank_assignment :
    (∀ (targetRoot : String) (scales : List (String × ℚ))
       (pre post : List (Nat × String × ℚ)) (a b : Nat × String × ℚ),
       JazzScaleApp.update_result_list targetRoot scales = pre ++ a :: b :: post →
       (b.2.2 = a.2.2 → b.1 = a.1) ∧ (b.2.2 ≠ a.2.2 → b.1 = pre.length + 2)) ∧
    (∀ (topN : Nat) (scales : List (String × ℚ))
       (pre post : List (Nat × String × ℚ)) (a b : Nat × String × ℚ),
       ScaleDetector.melody_display_list topN scales = pre ++ a :: b :: post →
       (b.2.2 = a.2.2 → b.1 = a.1) ∧ (b.2.2 ≠ a.2.2 → b.1 = pre.length + 2)) := by
  constructor
  · intro tr scales pre post a b h
    have hp := urr_pair tr scales 0 0 (-1) pre post a b h
    refine ⟨hp.1, fun hb => ?_⟩
    have := hp.2 hb
    omega
  · intro topN scales pre post a b h
    have hp := mdr_pair topN scales 0 0 (-1) pre post a b h
    refine ⟨hp.1, fun hb => ?_⟩
    have := hp.2 hb
    omega

/-- Witness for C5 on a concrete two-entry display list with distinct
scores. -/
theorem claim5_witness :
    JazzScaleApp.update_result_list "指定なし"
        [("C Ionian (Major)", 1), ("C Lydian", 3 / 5)] =
      [] ++ (1, "C Ionian (Major)", (1 : ℚ)) :: (2, "C Lydian", (3 / 5 : ℚ)) :: [] ∧
    (2, "C Lydian", (3 / 5 : ℚ)).1 = ([] : List (Nat × String × ℚ)).length + 2 := by
  have heq : JazzScaleApp.update_result_list "指定なし"
      [("C Ionian (Major)", 1), ("C Lydian", 3 / 5)] =
      [] ++ (1, "C Ionian (Major)", (1 : ℚ)) :: (2, "C Lydian", (3 / 5 : ℚ)) :: [] := by
    with_unfolding_all decide
  exact ⟨heq, (claim5_rank_assignment.1 "指定なし" _ [] [] _ _ heq).2
    (by with_unfolding_all decide)⟩

/-- C6: whenever any frame survives filtering, if the support filter yields
an empty set the extractor falls back to the 5 most frequent notes
(`most_common(5)`), and in all cases the performed note set and its
pitch-class set are non-empty. -/
theorem claim6_fallback (obs : List PitchObservation)
    (h : surviving obs (5 / 10) ≠ []) :
    (JazzScaleApp.melody_midi_raw (surviving obs (5 / 10)) = ∅ →
      JazzScaleApp.melody_midi_notes (surviving obs (5 / 10)) =
        ((most_common 5 (counter (surviving obs (5 / 10)))).map
          (fun p => p.1)).toFinset) ∧
    JazzScaleApp.melody_midi_notes (surviving obs (5 / 10)) ≠ ∅ ∧
    JazzScaleApp.melody_pitch_classes (surviving obs (5 / 10)) ≠ ∅ := by
  have hne : JazzScaleApp.melody_midi_notes (surviving obs (5 / 10)) ≠ ∅ := by
    by_cases hraw : JazzScaleApp.melody_midi_raw (surviving obs (5 / 10)) = ∅
    · rw [melody_midi_notes_of_raw_empty hraw h, Ne, List.toFinset_eq_empty_iff]
      intro hm
      exact most_common_ne_nil h (List.map_eq_nil_iff.1 hm)
    · rw [melody_midi_notes_of_raw_ne_empty hraw]
      exact hraw
  refine ⟨fun hraw => melody_midi_notes_of_raw_empty hraw h, hne, ?_⟩
  rw [JazzScaleApp.melody_pitch_classes, Ne, Finset.image_eq_empty]
  exact hne

/-- Witness for C6 on a one-frame voiced stream. -/
theorem claim6_witness :
    surviving [⟨some 60, 9 / 10⟩] (5 / 10) ≠ [] ∧
    JazzScaleApp.melody_midi_notes (surviving [⟨some 60, 9 / 10⟩] (5 / 10)) ≠ ∅ :=
  ⟨by with_unfolding_all decide,
   (claim6_fallback [⟨some 60, 9 / 10⟩] (by with_unfolding_all decide)).2.1⟩

/-- C7 counterexample: the standalone detector's display loop shows 6
entries although top_n = 5 (the break needs the score to strictly drop as
well), and displays an entry scored 0.4 — below the claimed 0.5 floor (its
floor is 0). -/
theorem claim7_cutoff_counterexample :
    (ScaleDetector.melody_display_list 5
        [("C Major", 1), ("C Ionian (Major)", 1), ("G Mixo-lydian", 1),
         ("D Dorian", 1), ("A Aeolian (Nat.Minor)", 1), ("E Phrygian", 1),
         ("B Locrian", 3 / 10)]).length = 6 ∧
    ScaleDetector.melody_display_list 5 [("C Major", 2 / 5)] =
      [(1, "C Major", 2 / 5)] := by
  constructor <;> with_unfolding_all decide

/-- C7 (amended): the app's result list obeys both bounds — at most 20
entries, every displayed score at least 0.5, whichever bound triggers first;
the standalone detector's list instead stops only at score 0 and can exceed
top_n while scores tie, so only its displayed scores being positive holds. -/
theorem claim7_cutoff_app :
    (∀ (targetRoot : String) (scales : List (String × ℚ)),
       (JazzScaleApp.update_result_list targetRoot scales).length ≤ 20) ∧
    (∀ (targetRoot : String) (scales : List (String × ℚ)),
       ∀ row ∈ JazzScaleApp.update_result_list targetRoot scales,
         (5 / 10 : ℚ) ≤ row.2.2) ∧
    (∀ (topN : Nat) (scales : List (String × ℚ)),
       ∀ row ∈ ScaleDetector.melody_display_list topN scales,
         (0 : ℚ) < row.2.2) := by
  refine ⟨?_, ?_, ?_⟩
  · intro tr scales
    have := urr_length tr scales 0 0 (-1)
    rw [JazzScaleApp.update_result_list]
    omega
  · intro tr scales row hrow
    exact urr_floor tr scales 0 0 (-1) row hrow
  · intro topN scales row hrow
    exact mdr_floor topN scales 0 0 (-1) row hrow

/-- Witness for C7 on a one-entry display list. -/
theorem claim7_witness :
    (1, "C Major", (1 : ℚ)) ∈
      JazzScaleApp.update_result_list "指定なし" [("C Major", 1)] ∧
    (5 / 10 : ℚ) ≤ ((1, "C Major", (1 : ℚ)) : Nat × String × ℚ).2.2 :=
  ⟨by with_unfolding_all decide,
   claim7_cutoff_app.2.1 "指定なし" [("C Major", 1)] (1, "C Major", 1)
     (by with_unfolding_all decide)⟩

/-- C8: both matchers sort by score in non-increasing order
(`Sorted scoreRel` is exactly pairwise score-descending), and the sort is
stable with respect to the scored catalog list, which is built in catalog
declaration order (root-major, then pattern order): for every score value,
the subsequence of entries carrying that score is identical in the sorted
output and in the scored catalog list. -/
theorem claim8_stable_order :
    (∀ (pcs : Finset Nat) (catalog : List (String × Finset Nat)),
       (JazzScaleApp.sorted_scales pcs catalog).Sorted scoreRel ∧
       ∀ s : ℚ,
         (JazzScaleApp.sorted_scales pcs catalog).filter (fun y => decide (y.2 = s)) =
           (JazzScaleApp.scored_scales pcs catalog).filter (fun y => decide (y.2 = s))) ∧
    (∀ (pcs : Finset Nat) (catalog : List (String × Finset Nat)),
       (ScaleDetector.find_matching_scales pcs catalog).Sorted scoreRel ∧
       (pcs ≠ ∅ →
         ∀ s : ℚ,
           (ScaleDetector.find_matching_scales pcs catalog).filter
               (fun y => decide (y.2 = s)) =
             (ScaleDetector.detector_scored pcs catalog).filter
               (fun y => decide (y.2 = s)))) := by
  constructor
  · intro pcs catalog
    exact ⟨List.sorted_insertionSort scoreRel _,
      fun s => filter_insertionSort_score s _⟩
  · intro pcs catalog
    constructor
    · rw [ScaleDetector.find_matching_scales]
      by_cases h : pcs = ∅
      · rw [if_pos h]
        exact List.sorted_nil
      · rw [if_neg h]
        exact List.sorted_insertionSort scoreRel _
    · intro h s
      rw [ScaleDetector.find_matching_scales, if_neg h]
      exact filter_insertionSort_score s _

/-- Witness for C8 on a concrete two-entry catalog and the score value 1. -/
theorem claim8_witness :
    (ScaleDetector.find_matching_scales {0} [("A", {0}), ("B", {1})]).filter
        (fun y => decide (y.2 = 1)) =
      (ScaleDetector.detector_scored {0} [("A", {0}), ("B", {1})]).filter
        (fun y => decide (y.2 = 1)) :=
  (claim8_stable_order.2 {0} [("A", {0}), ("B", {1})]).2
    (by with_unfolding_all decide) 1

/-- C9: for every pitch class and root in [0,11], the degree label equals
the fixed 12-entry interval table looked up at (pitch class − root) mod 12,
is never the fallback "?" (so notes outside any chosen scale still receive a
label), and in particular degree_label(7,0) = "5" and
degree_label(1,0) = "b9". -/
theorem claim9_degree_label :
    (∀ p r : Int, 0 ≤ p → p ≤ 11 → 0 ≤ r → r ≤ 11 →
       JazzScaleApp.degree_label p r =
         INTERVAL_TABLE.getD ((p - r) % 12).toNat "?" ∧
       JazzScaleApp.degree_label p r ≠ "?") ∧
    JazzScaleApp.degree_label 7 0 = "5" ∧
    JazzScaleApp.degree_label 1 0 = "b9" := by
  refine ⟨?_, by with_unfolding_all rfl, by with_unfolding_all rfl⟩
  intro p r hp0 hp1 hr0 hr1
  have h0 : 0 ≤ (p - r) % 12 := Int.emod_nonneg _ (by norm_num)
  have h1 : (p - r) % 12 < 12 := Int.emod_lt_of_pos _ (by norm_num)
  rw [JazzScaleApp.degree_label]
  generalize hk : (p - r) % 12 = k at h0 h1 ⊢
  interval_cases k <;> constructor <;> with_unfolding_all decide

/-- Witness for C9 at pitch class 7 over root 0. -/
theorem claim9_witness :
    JazzScaleApp.degree_label 7 0 =
      INTERVAL_TABLE.getD (((7 : Int) - 0) % 12).toNat "?" ∧
    JazzScaleApp.degree_label 7 0 ≠ "?" :=
  claim9_degree_label.1 7 0 (by norm_num) (by norm_num) (by norm_num) (by norm_num)

/-- C10: for every root in [0,11] and every shipped pattern (in both pattern
tables), the generated pitch-class set contains the root itself (every
shipped pattern starts at offset 0) and lies inside [0,11]; and
`generate_all_scales` produces exactly 12 × |pattern table| entries in each
file. -/
theorem claim10_catalog_invariant (root : Nat) (hroot : root < 12) :
    (∀ p ∈ JazzScaleApp.SCALE_PATTERNS,
       root ∈ JazzScaleApp.scale_pcs root p.2 ∧
       ∀ x ∈ JazzScaleApp.scale_pcs root p.2, x < 12) ∧
    (∀ p ∈ ScaleDetector.SCALE_PATTERNS,
       root ∈ ScaleDetector.scale_pcs root p.2 ∧
       ∀ x ∈ ScaleDetector.scale_pcs root p.2, x < 12) ∧
    JazzScaleApp.generate_all_scales.length = 12 * JazzScaleApp.SCALE_PATTERNS.length ∧
    ScaleDetector.generate_all_scales.length = 12 * ScaleDetector.SCALE_PATTERNS.length := by
  have hz_app : ∀ p ∈ JazzScaleApp.SCALE_PATTERNS, 0 ∈ p.2 := by
    with_unfolding_all decide
  have hz_det : ∀ p ∈ ScaleDetector.SCALE_PATTERNS, 0 ∈ p.2 := by
    with_unfolding_all decide
  refine ⟨?_, ?_, by with_unfolding_all rfl, by with_unfolding_all rfl⟩
  · intro p hp
    constructor
    · rw [JazzScaleApp.scale_pcs, List.mem_toFinset, List.mem_map]
      exact ⟨0, hz_app p hp, by rw [Nat.add_zero, Nat.mod_eq_of_lt hroot]⟩
    · intro x hx
      rw [JazzScaleApp.scale_pcs, List.mem_toFinset, List.mem_map] at hx
      obtain ⟨i, -, rfl⟩ := hx
      exact Nat.mod_lt _ (by norm_num)
  · intro p hp
    constructor
    · rw [ScaleDetector.scale_pcs, List.mem_toFinset, List.mem_map]
      exact ⟨0, hz_det p hp, by rw [Nat.add_zero, Nat.mod_eq_of_lt hroot]⟩
    · intro x hx
      rw [ScaleDetector.scale_pcs, List.mem_toFinset, List.mem_map] at hx
      obtain ⟨i, -, rfl⟩ := hx
      exact Nat.mod_lt _ (by norm_num)

/-- Witness for C10 at root 0 and the app's first shipped pattern. -/
theorem claim10_witness :
    0 ∈ JazzScaleApp.scale_pcs 0 [0, 2, 4, 5, 7, 9, 11] ∧
    JazzScaleApp.generate_all_scales.length = 12 * JazzScaleApp.SCALE_PATTERNS.length := by
  have h := claim10_catalog_invariant 0 (by norm_num)
  exact ⟨(h.1 ("Ionian (Major)", [0, 2, 4, 5, 7, 9, 11])
    (by with_unfolding_all decide)).1, h.2.2.1⟩
